import Mathlib

/-!
Verification of the evm-bridge relayer and source bridge contract.

The definitions below are a shallow embedding of:
  * `relayer/src/index.ts` — the `BridgeRelayer` class: nonce deduplication
    (`processTokensLockedEvent`), batch processing (`processEventsFromRange`),
    the polling loop (`pollForEvents`), checkpoint load/store
    (`getLastProcessedBlock` / `saveLastProcessedBlock`), message hashing
    (`createMessageHash` / `signMessage`), and the signal handlers in `main`.
  * `contracts/contracts/Bridge.sol` — the `lockTokens` nonce counter.

Bytes are `Nat` values below 256 in lists; machine integers are `Nat`/`Int`
with explicit bounds where overflow matters; JavaScript numbers that can be
`NaN` are the `JsNum` type.  Chain responses (transaction outcomes, block
heads, event batches) are inputs to the step functions, so one run of the
relayer is a fold over an environment-chosen list of ticks.
-/

/-! ## Byte encodings and the signed preimage (relayer `createMessageHash`, `signMessage`) -/

/-- Big-endian byte encoding of `n` into exactly `w` bytes (truncating above
`256 ^ w`).  This is the packing `ethers.solidityPacked` applies to each
fixed-width word. -/
def beBytes : Nat → Nat → List Nat
  | 0, _ => []
  | w + 1, n => beBytes w (n / 256) ++ [n % 256]

/-- Little-endian byte encoding, used only to give the spec's wording an
independent formulation of big-endian bytes (least significant byte first,
then reversed). -/
def leBytes : Nat → Nat → List Nat
  | 0, _ => []
  | w + 1, n => n % 256 :: leBytes w (n / 256)

/-- Bytes of an ASCII string, as natural numbers.  Every string hashed here is
pure ASCII, so its UTF-8 bytes coincide with its character code points. -/
def asciiBytes (s : String) : List Nat :=
  s.data.map (fun c => c.toNat)

/-- `ethers.solidityPacked(["address", "uint256", "uint256"], [recipient, amount, nonce])`:
the address contributes 20 bytes, each `uint256` contributes 32 big-endian
bytes, concatenated with no padding.  This is the byte string the relayer
hashes in `createMessageHash`. -/
def solidityPackedAddrU256U256 (recipient amount nonce : Nat) : List Nat :=
  beBytes 20 recipient ++ beBytes 32 amount ++ beBytes 32 nonce

/-- `createMessageHash(recipient, amount, nonce)` from `relayer/src/index.ts`:
`ethers.keccak256(ethers.solidityPacked(["address","uint256","uint256"], …))`.
The keccak-256 function is a parameter: the code calls the library
implementation on the packed bytes. -/
def createMessageHash (keccak : List Nat → List Nat)
    (recipient amount nonce : Nat) : List Nat :=
  keccak (solidityPackedAddrU256U256 recipient amount nonce)

/-- The prefix bytes `ethers.hashMessage` prepends: the UTF-8 bytes of
`"\x19Ethereum Signed Message:\n"` followed by the UTF-8 bytes of the decimal
length of the 32-byte payload (the string `"32"`). -/
def ethersMessagePrefix : List Nat :=
  (25 :: asciiBytes "Ethereum Signed Message:\n") ++ asciiBytes "32"

/-- `ethers.hashMessage(bytes)`: keccak-256 of the prefix followed by the raw
message bytes. -/
def ethersHashMessage (keccak : List Nat → List Nat) (message : List Nat) : List Nat :=
  keccak (ethersMessagePrefix ++ message)

/-- `signMessage(messageHash)` from `relayer/src/index.ts`:
`wallet.signMessage(ethers.getBytes(messageHash))`, i.e. an ECDSA signature
(65 bytes `r ‖ s ‖ v` from the wallet) over `ethers.hashMessage` of the
32 digest bytes.  `ecdsaSign` is the wallet's raw signing function. -/
def signMessage (keccak : List Nat → List Nat) (ecdsaSign : List Nat → List Nat)
    (messageHash : List Nat) : List Nat :=
  ecdsaSign (ethersHashMessage keccak messageHash)

/-- The spec's canonical preimage, written from the spec's words: `recipient`
(20 bytes) followed by `amount` (32 bytes, big-endian) followed by `sequence`
(32 bytes, big-endian), no padding between fields.  Big-endian is formulated
independently of `beBytes` via reversed little-endian bytes. -/
def specCanonicalPreimage (recipient amount sequence : Nat) : List Nat :=
  (leBytes 20 recipient).reverse ++ (leBytes 32 amount).reverse
    ++ (leBytes 32 sequence).reverse

/-- The spec's Ethereum-prefix: the UTF-8 bytes of the single string
`"\x19Ethereum Signed Message:\n32"` (byte 0x19, then the ASCII text). -/
def specEthPrefix : List Nat :=
  25 :: asciiBytes "Ethereum Signed Message:\n32"

theorem beBytes_length (w n : Nat) : (beBytes w n).length = w := by
  induction w generalizing n with
  | zero => rfl
  | succ w ih => simp [beBytes, ih]

theorem beBytes_eq_leBytes_reverse (w n : Nat) :
    beBytes w n = (leBytes w n).reverse := by
  induction w generalizing n with
  | zero => rfl
  | succ w ih => simp [beBytes, leBytes, ih]

/-! ## Source bridge contract (`contracts/contracts/Bridge.sol`) -/

/-- One `TokensLocked(uint256 indexed nonce, address indexed destinationAddress,
uint256 indexed amount)` log. -/
structure TokensLockedLog where
  nonce : Nat
  destinationAddress : Nat
  amount : Nat
  deriving DecidableEq, Repr

/-- One call to `lockTokens(uint256 amount, address recipientOnChainB)`:
the arguments, plus whether the inner `transferFrom` succeeds (it reverts the
whole call when the caller lacks balance or allowance). -/
structure LockCall where
  amount : Nat
  recipientOnChainB : Nat
  transferOk : Bool
  deriving DecidableEq, Repr

/-- `2 ^ 256`, the modulus of Solidity `uint256`. -/
def UINT256_MOD : Nat := 2 ^ 256

/-- `lockTokens` from `Bridge.sol`: `transferFrom` (reverting on failure), then
the checked increment `_currentNonce += 1` (Solidity ≥ 0.8 reverts on
overflow), then `emit TokensLocked(_currentNonce, recipientOnChainB, amount)`.
The state is the private `_currentNonce` counter; `none` models a revert, in
which case no state change and no event survive. -/
def lockTokens (c : LockCall) (currentNonce : Nat) :
    Option (Nat × TokensLockedLog) :=
  if c.transferOk then
    if currentNonce + 1 < UINT256_MOD then
      some (currentNonce + 1,
        { nonce := currentNonce + 1
          destinationAddress := c.recipientOnChainB
          amount := c.amount })
    else none
  else none

/-- A sequence of `lockTokens` calls against one contract instance: the final
`_currentNonce` and the `TokensLocked` logs emitted by the successful calls,
in call order.  Reverted calls leave the state unchanged and emit nothing. -/
def runLockCalls (currentNonce : Nat) : List LockCall → Nat × List TokensLockedLog
  | [] => (currentNonce, [])
  | c :: rest =>
    match lockTokens c currentNonce with
    | some (st', ev) =>
      let (stF, evs) := runLockCalls st' rest
      (stF, ev :: evs)
    | none => runLockCalls currentNonce rest

/-- Number of calls in the list whose `transferFrom` succeeds. -/
def succCount (calls : List LockCall) : Nat :=
  (calls.filter (·.transferOk)).length

theorem runLockCalls_nonces (currentNonce : Nat) (calls : List LockCall) :
    ((runLockCalls currentNonce calls).2.map (·.nonce)) =
      List.range' (currentNonce + 1)
        (min (succCount calls) (UINT256_MOD - 1 - currentNonce)) := by
  induction calls generalizing currentNonce with
  | nil => simp [runLockCalls, succCount]
  | cons c rest ih =>
    by_cases hok : c.transferOk
    · by_cases hov : currentNonce + 1 < UINT256_MOD
      · have h1 : min (succCount (c :: rest)) (UINT256_MOD - 1 - currentNonce)
            = min (succCount rest) (UINT256_MOD - 1 - (currentNonce + 1)) + 1 := by
          have hc : succCount (c :: rest) = succCount rest + 1 := by
            simp [succCount, hok]
          omega
        simp only [runLockCalls, lockTokens, hok, if_true, hov, h1]
        simp [List.range', ih]
      · have h0 : UINT256_MOD - 1 - currentNonce = 0 := by omega
        have h0' : min (succCount (c :: rest)) 0 = 0 := Nat.min_zero _
        simp only [runLockCalls, lockTokens, hok, if_true, hov, if_false, h0, h0']
        have := ih currentNonce
        simp [h0] at this
        simp [List.range', this]
    · have hc : succCount (c :: rest) = succCount rest := by
        simp [succCount, hok]
      simp only [runLockCalls, lockTokens, hok, if_false, hc]
      exact ih currentNonce

/-! ## JavaScript numbers and `parseInt` (relayer `getLastProcessedBlock`) -/

/-- A JavaScript number as the relayer uses it: either an exact integer or
`NaN`.  (Float rounding is irrelevant at the magnitudes involved.) -/
inductive JsNum where
  | nan : JsNum
  | num : Int → JsNum
  deriving DecidableEq, Repr

/-- JavaScript `a > b` for a plain number `a`: any comparison with `NaN` is
`false`. -/
def jsGt (a : Int) (b : JsNum) : Bool :=
  match b with
  | .nan => false
  | .num m => decide (m < a)

/-- JavaScript `a === k` for an integer literal `k`: `NaN === k` is `false`. -/
def jsEqInt (a : JsNum) (k : Int) : Bool :=
  match a with
  | .nan => false
  | .num m => decide (m = k)

/-- Value of a decimal digit character, `none` for non-digits. -/
def decDigitVal (c : Char) : Option Nat :=
  if c.isDigit then some (c.toNat - 48) else none

/-- Value of a hexadecimal digit character, `none` otherwise. -/
def hexDigitVal (c : Char) : Option Nat :=
  if c.isDigit then some (c.toNat - 48)
  else if 'a' ≤ c ∧ c ≤ 'f' then some (c.toNat - 87)
  else if 'A' ≤ c ∧ c ≤ 'F' then some (c.toNat - 55)
  else none

/-- Accumulate the value of the longest digit prefix of `cs`. -/
def digitsValueAux (dv : Char → Option Nat) (base : Nat) :
    List Char → Nat → Nat
  | [], acc => acc
  | c :: cs, acc =>
    match dv c with
    | some d => digitsValueAux dv base cs (acc * base + d)
    | none => acc

/-- JavaScript `parseInt(s)` with the radix argument omitted: skip leading
whitespace, read an optional sign, treat a `0x`/`0X` prefix as hexadecimal,
then take the longest digit prefix; `NaN` when no digit follows. -/
def jsParseInt (s : String) : JsNum :=
  let cs := s.toList.dropWhile (·.isWhitespace)
  let signed : Int × List Char :=
    match cs with
    | '-' :: rest => (-1, rest)
    | '+' :: rest => (1, rest)
    | _ => (1, cs)
  let sign := signed.1
  match signed.2 with
  | '0' :: 'x' :: rest =>
    match rest with
    | c :: _ =>
      if (hexDigitVal c).isSome then .num (sign * (digitsValueAux hexDigitVal 16 rest 0 : Nat))
      else .nan
    | [] => .nan
  | '0' :: 'X' :: rest =>
    match rest with
    | c :: _ =>
      if (hexDigitVal c).isSome then .num (sign * (digitsValueAux hexDigitVal 16 rest 0 : Nat))
      else .nan
    | [] => .nan
  | c :: cs' =>
    if (decDigitVal c).isSome then .num (sign * (digitsValueAux decDigitVal 10 (c :: cs') 0 : Nat))
    else .nan
  | [] => .nan

/-- JavaScript `s.trim()`: drop leading and trailing whitespace. -/
def jsTrim (s : String) : String :=
  String.mk (((s.data.dropWhile (·.isWhitespace)).reverse.dropWhile
    (·.isWhitespace)).reverse)

/-- `getLastProcessedBlock`: read the checkpoint file and `parseInt` its
trimmed contents (the `parseInt` result is returned whatever it is, `NaN`
included); if the read fails — no file — return 0. -/
def getLastProcessedBlock (fileContent : Option String) : JsNum :=
  match fileContent with
  | some data => jsParseInt (jsTrim data)
  | none => .num 0

/-- The bootstrap at the top of `pollForEvents`: if the loaded value `=== 0`,
start from `Math.max(0, currentBlock - 100)`; otherwise keep the loaded value
(`NaN` included). -/
def initCursor (fileContent : Option String) (head0 : Int) : JsNum :=
  let c := getLastProcessedBlock fileContent
  if jsEqInt c 0 then .num (max 0 (head0 - 100)) else c

/-! ## The relayer event-processing state machine (`relayer/src/index.ts`) -/

/-- A decoded `TokensLocked` event as the relayer represents it. -/
structure TLEvent where
  nonce : Nat
  destinationAddress : Nat
  amount : Nat
  blockNumber : Int
  deriving DecidableEq, Repr

/-- A thrown JavaScript value: an `Error` carrying a message, or any other
value (the `instanceof Error` test fails on the latter). -/
inductive JsError where
  | error : String → JsError
  | other : JsError
  deriving DecidableEq, Repr

/-- Environment-chosen outcome of one `releaseTokens` submission: the awaited
receipt has `status === 1`, or somewhere in the try block a value is thrown
(this also covers `receipt.status ≠ 1`, which the code turns into a thrown
`Error`). -/
inductive TxOutcome where
  | success : TxOutcome
  | fail : JsError → TxOutcome
  deriving DecidableEq, Repr

/-- Executable substring test: `s.includes(pat)` ⟺ some tail of `s` starts
with `pat`. -/
def hasSubstr (s pat : String) : Bool :=
  s.toList.tails.any (fun t => pat.toList.isPrefixOf t)

/-- The benign-error test in `processTokensLockedEvent`'s catch block:
`error instanceof Error && error.message.includes("Nonce has already been used")`. -/
def isBenign : JsError → Bool
  | .error msg => hasSubstr msg "Nonce has already been used"
  | .other => false

/-- The dedup key for an event: `` `${event.nonce.toString()}` ``. -/
def nonceKey (ev : TLEvent) : String :=
  toString ev.nonce

/-- `processTokensLockedEvent(event)` given the processed-nonce set and the
submission outcome.  Returns the new set, whether a `releaseTokens` call was
made, and the error propagated to the caller, if any:
  * key already in the set — skip, no submission;
  * receipt success — insert the key;
  * thrown benign already-used error — insert the key, swallow the error;
  * any other thrown value — set unchanged, re-throw. -/
def processEvent (processed : List String) (ev : TLEvent) (out : TxOutcome) :
    List String × Bool × Option JsError :=
  let key := nonceKey ev
  if key ∈ processed then (processed, false, none)
  else
    match out with
    | .success => (key :: processed, true, none)
    | .fail e =>
      if isBenign e then (key :: processed, true, none)
      else (processed, true, some e)

/-- The `for (const event of events)` loop of `processEventsFromRange`:
process events in order, stopping at the first propagated error.  Returns the
final set, the nonces for which `releaseTokens` was submitted (in order), and
the propagated error, if any. -/
def runBatch (processed : List String) :
    List (TLEvent × TxOutcome) → List String × List Nat × Option JsError
  | [] => (processed, [], none)
  | (ev, out) :: rest =>
    let r := processEvent processed ev out
    match r.2.2 with
    | some e => (r.1, if r.2.1 then [ev.nonce] else [], some e)
    | none =>
      let tail := runBatch r.1 rest
      (tail.1, (if r.2.1 then [ev.nonce] else []) ++ tail.2.1, tail.2.2)

/-- The mutable relayer state visible across ticks: the global
`processedNonces` set, the loop's `lastProcessedBlock` cursor, and the
checkpoint file's contents (`none` = file absent). -/
structure RState where
  processed : List String
  cursor : JsNum
  file : Option String
  deriving DecidableEq, Repr

/-- Everything one iteration of the `while (this.isRunning)` loop did. -/
structure TickResult where
  state : RState
  queried : Option (Int × Int)
  submitted : List Nat
  wrote : Option Int
  sleptMs : Nat
  errored : Bool
  deriving DecidableEq, Repr

/-- One iteration of the polling loop, given the chain head and the decoded
event batch the log query returns (with each event's submission outcome).
If `currentBlock > lastProcessedBlock` (false when the cursor is `NaN`),
`processEventsFromRange(lastProcessedBlock + 1, currentBlock)` runs: on
success it writes the checkpoint with `toBlock` and the loop sets
`lastProcessedBlock = currentBlock`, then sleeps `pollInterval`; if the batch
propagates an error, the checkpoint write and cursor assignment are skipped,
the catch block logs, and the loop sleeps `pollInterval * 2`.  Insertions into
the processed set made before the failure persist either way. -/
def tick (pollInterval : Nat) (st : RState) (head : Int)
    (batch : List (TLEvent × TxOutcome)) : TickResult :=
  match st.cursor with
  | .nan =>
    { state := st, queried := none, submitted := [], wrote := none
      sleptMs := pollInterval, errored := false }
  | .num c =>
    if c < head then
      let r := runBatch st.processed batch
      match r.2.2 with
      | none =>
        { state := { processed := r.1, cursor := .num head, file := some (toString head) }
          queried := some (c + 1, head), submitted := r.2.1
          wrote := some head, sleptMs := pollInterval, errored := false }
      | some _ =>
        { state := { processed := r.1, cursor := st.cursor, file := st.file }
          queried := some (c + 1, head), submitted := r.2.1
          wrote := none, sleptMs := 2 * pollInterval, errored := true }
    else
      { state := st, queried := none, submitted := [], wrote := none
        sleptMs := pollInterval, errored := false }

/-- A run of the polling loop: fold `tick` over an environment-chosen list of
(head, batch) pairs, collecting every tick's result. -/
def run (pollInterval : Nat) (st : RState) :
    List (Int × List (TLEvent × TxOutcome)) → RState × List TickResult
  | [] => (st, [])
  | (head, batch) :: rest =>
    let r := tick pollInterval st head batch
    let tail := run pollInterval r.state rest
    (tail.1, r :: tail.2)

/-- All nonces submitted across a run, in order. -/
def runSubmitted (pollInterval : Nat) (st : RState)
    (ticks : List (Int × List (TLEvent × TxOutcome))) : List Nat :=
  ((run pollInterval st ticks).2.map (·.submitted)).flatten

/-! ## Checkpoint store syscall trace (`saveLastProcessedBlock`) -/

/-- A filesystem operation the relayer could issue. -/
inductive FsOp where
  | write : String → String → FsOp
  | renameFile : String → String → FsOp
  deriving DecidableEq, Repr

/-- Whether an operation is a rename. -/
def FsOp.isRenameOp : FsOp → Bool
  | .renameFile _ _ => true
  | .write _ _ => false

/-- `saveLastProcessedBlock(blockNumber)`: the sequence of filesystem
operations it issues — a single
`fs.writeFile(this.config.lastBlockFile, blockNumber.toString())`. -/
def saveLastProcessedBlock (lastBlockFile : String) (blockNumber : Int) : List FsOp :=
  [.write lastBlockFile (toString blockNumber)]

/-- Modelled from the spec: the rename-over-temp checkpoint store the spec
describes ("write to temp, rename"); this operation sequence is absent from
the repository's code and is defined here only to compare against
`saveLastProcessedBlock`. -/
def specAtomicStore (path : String) (blockNumber : Int) : List FsOp :=
  [.write (path ++ ".tmp") (toString blockNumber),
   .renameFile (path ++ ".tmp") path]

/-! ## Shutdown signal handlers (`main` in `relayer/src/index.ts`) -/

/-- Supervisor-level state: the relayer state plus the `isRunning` flag that
`stop()` clears. -/
structure SupervisorState where
  relayer : RState
  isRunning : Bool
  deriving DecidableEq, Repr

/-- `stop()`: sets `isRunning = false` and nothing else. -/
def stopRelayer (s : SupervisorState) : SupervisorState :=
  { s with isRunning := false }

/-- The SIGINT/SIGTERM handler installed in `main`: it calls `relayer.stop()`
and then immediately `process.exit(0)`.  The second component is the exit the
handler itself performs — `some 0`, issued synchronously inside the handler,
not deferred to the loop. -/
def onShutdownSignal (s : SupervisorState) : SupervisorState × Option Nat :=
  (stopRelayer s, some 0)

/-! ## Helper lemmas on the relayer state machine -/

theorem processEvent_mem (x : String) (p : List String) (ev : TLEvent)
    (out : TxOutcome) (hx : x ∈ p) : x ∈ (processEvent p ev out).1 := by
  unfold processEvent
  by_cases hm : nonceKey ev ∈ p
  · simp [hm, hx]
  · cases out with
    | success => simp [hm, hx]
    | fail e =>
      by_cases hb : isBenign e <;> simp [hm, hb, hx]

theorem runBatch_mem (x : String) (p : List String)
    (batch : List (TLEvent × TxOutcome)) (hx : x ∈ p) :
    x ∈ (runBatch p batch).1 := by
  induction batch generalizing p with
  | nil => simpa [runBatch]
  | cons hd tl ih =>
    obtain ⟨ev, out⟩ := hd
    simp only [runBatch]
    split
    · exact processEvent_mem x p ev out hx
    · exact ih _ (processEvent_mem x p ev out hx)

theorem processEvent_key_of_submitted (p : List String) (ev : TLEvent)
    (out : TxOutcome) (h : (processEvent p ev out).2.1 = true) :
    nonceKey ev ∉ p := by
  intro hm
  simp [processEvent, hm] at h

theorem runBatch_submitted_key_fresh (p : List String)
    (batch : List (TLEvent × TxOutcome)) (m : Nat)
    (hm : m ∈ (runBatch p batch).2.1) : toString m ∉ p := by
  induction batch generalizing p with
  | nil => simp [runBatch] at hm
  | cons hd tl ih =>
    obtain ⟨ev, out⟩ := hd
    by_cases hk : nonceKey ev ∈ p
    · have hpe : processEvent p ev out = (p, false, none) := by
        simp [processEvent, hk]
      simp only [runBatch, hpe] at hm
      simp at hm
      exact ih p hm
    · cases out with
      | success =>
        have hpe : processEvent p ev .success = (nonceKey ev :: p, true, none) := by
          simp [processEvent, hk]
        simp only [runBatch, hpe] at hm
        simp at hm
        rcases hm with hm | hm
        · subst hm; exact hk
        · intro hmem
          exact (ih _ hm) (List.mem_cons_of_mem _ hmem)
      | fail e =>
        by_cases hb : isBenign e
        · have hpe : processEvent p ev (.fail e) = (nonceKey ev :: p, true, none) := by
            simp [processEvent, hk, hb]
          simp only [runBatch, hpe] at hm
          simp at hm
          rcases hm with hm | hm
          · subst hm; exact hk
          · intro hmem
            exact (ih _ hm) (List.mem_cons_of_mem _ hmem)
        · have hpe : processEvent p ev (.fail e) = (p, true, some e) := by
            simp [processEvent, hk, hb]
          simp only [runBatch, hpe] at hm
          simp at hm
          subst hm; exact hk

theorem runBatch_no_resubmit (p : List String)
    (batch : List (TLEvent × TxOutcome)) (n : Nat)
    (hp : toString n ∈ p) : n ∉ (runBatch p batch).2.1 := by
  intro hn
  exact runBatch_submitted_key_fresh p batch n hn hp

theorem tick_processed_mem (x : String) (pollInterval : Nat) (st : RState)
    (head : Int) (batch : List (TLEvent × TxOutcome))
    (hx : x ∈ st.processed) :
    x ∈ (tick pollInterval st head batch).state.processed := by
  unfold tick
  match hc : st.cursor with
  | .nan => simpa [hc]
  | .num c =>
    by_cases hh : c < head
    · simp only [hh, if_true]
      split <;> exact runBatch_mem x st.processed batch hx
    · simpa [hh]

theorem tick_submitted_key_fresh (pollInterval : Nat) (st : RState)
    (head : Int) (batch : List (TLEvent × TxOutcome)) (m : Nat)
    (hm : m ∈ (tick pollInterval st head batch).submitted) :
    toString m ∉ st.processed := by
  unfold tick at hm
  match hc : st.cursor with
  | .nan => rw [hc] at hm; simp at hm
  | .num c =>
    rw [hc] at hm
    by_cases hh : c < head
    · simp only [hh, if_true] at hm
      split at hm <;> exact runBatch_submitted_key_fresh st.processed batch m hm
    · simp [hh] at hm

theorem run_no_resubmit (pollInterval : Nat) (st : RState)
    (ticks : List (Int × List (TLEvent × TxOutcome))) (n : Nat)
    (hp : toString n ∈ st.processed) :
    ∀ r ∈ (run pollInterval st ticks).2, n ∉ r.submitted := by
  induction ticks generalizing st with
  | nil => simp [run]
  | cons hd tl ih =>
    obtain ⟨head, batch⟩ := hd
    intro r hr
    simp only [run, List.mem_cons] at hr
    rcases hr with hr | hr
    · subst hr
      intro hn
      exact tick_submitted_key_fresh pollInterval st head batch n hn hp
    · exact ih (tick pollInterval st head batch).state
        (tick_processed_mem _ pollInterval st head batch hp) r hr

theorem runBatch_none_terminal (p : List String)
    (batch : List (TLEvent × TxOutcome))
    (hok : (runBatch p batch).2.2 = none) :
    ∀ eo ∈ batch, nonceKey eo.1 ∈ (runBatch p batch).1 := by
  induction batch generalizing p with
  | nil => simp
  | cons hd tl ih =>
    obtain ⟨ev, out⟩ := hd
    intro eo heo
    by_cases hk : nonceKey ev ∈ p
    · have hpe : processEvent p ev out = (p, false, none) := by
        simp [processEvent, hk]
      simp only [runBatch, hpe] at hok ⊢
      simp only [List.mem_cons] at heo
      rcases heo with heo | heo
      · subst heo
        exact runBatch_mem _ _ _ hk
      · exact ih p hok eo heo
    · cases out with
      | success =>
        have hpe : processEvent p ev .success = (nonceKey ev :: p, true, none) := by
          simp [processEvent, hk]
        simp only [runBatch, hpe] at hok ⊢
        simp only [List.mem_cons] at heo
        rcases heo with heo | heo
        · subst heo
          exact runBatch_mem _ _ _ (List.mem_cons_self _ _)
        · exact ih _ hok eo heo
      | fail e =>
        by_cases hb : isBenign e
        · have hpe : processEvent p ev (.fail e) = (nonceKey ev :: p, true, none) := by
            simp [processEvent, hk, hb]
          simp only [runBatch, hpe] at hok ⊢
          simp only [List.mem_cons] at heo
          rcases heo with heo | heo
          · subst heo
            exact runBatch_mem _ _ _ (List.mem_cons_self _ _)
          · exact ih _ hok eo heo
        · have hpe : processEvent p ev (.fail e) = (p, true, some e) := by
            simp [processEvent, hk, hb]
          simp [runBatch, hpe] at hok

theorem tick_nan (pollInterval : Nat) (p : List String) (f : Option String)
    (head : Int) (batch : List (TLEvent × TxOutcome)) :
    tick pollInterval ⟨p, .nan, f⟩ head batch =
      ⟨⟨p, .nan, f⟩, none, [], none, pollInterval, false⟩ := rfl

theorem run_nan (pollInterval : Nat) (p : List String) (f : Option String) :
    ∀ ticks, (run pollInterval ⟨p, .nan, f⟩ ticks).1 = ⟨p, .nan, f⟩ ∧
      ∀ r ∈ (run pollInterval ⟨p, .nan, f⟩ ticks).2,
        r = ⟨⟨p, .nan, f⟩, none, [], none, pollInterval, false⟩ := by
  intro ticks
  induction ticks with
  | nil => simp [run]
  | cons hd tl ih =>
    obtain ⟨head, batch⟩ := hd
    refine ⟨?_, ?_⟩
    · simp only [run, tick_nan]
      exact ih.1
    · intro r hr
      simp only [run, tick_nan, List.mem_cons] at hr
      rcases hr with hr | hr
      · exact hr
      · exact ih.2 r hr

theorem tick_queried (pollInterval : Nat) (st : RState) (head : Int)
    (batch : List (TLEvent × TxOutcome)) (c : Int) (hc : st.cursor = .num c) :
    (tick pollInterval st head batch).queried
      = if c < head then some (c + 1, head) else none := by
  obtain ⟨p, cur, f⟩ := st
  simp only at hc
  subst hc
  unfold tick
  by_cases hh : c < head
  · simp only [hh, if_true]
    split <;> rfl
  · simp [hh]

/-! ## Claim theorems -/

/-- C2: the relayer's message hash is keccak-256 of the 84-byte concatenation
`recipient` (20 bytes) ‖ `amount` (32 bytes big-endian) ‖ `sequence` (32 bytes
big-endian) with no padding, and the signature it submits is the wallet's
65-byte ECDSA signature over keccak-256 of the string
`"\x19Ethereum Signed Message:\n32"` followed by that 32-byte digest. -/
theorem relayer_preimage_matches_spec (keccak ecdsaSign : List Nat → List Nat)
    (recipient amount nonce : Nat)
    (hsig : ∀ d, (ecdsaSign d).length = 65) :
    createMessageHash keccak recipient amount nonce
        = keccak (specCanonicalPreimage recipient amount nonce) ∧
    solidityPackedAddrU256U256 recipient amount nonce
        = specCanonicalPreimage recipient amount nonce ∧
    (specCanonicalPreimage recipient amount nonce).length = 84 ∧
    ethersMessagePrefix = specEthPrefix ∧
    specEthPrefix.length = 28 ∧
    (∀ digest, signMessage keccak ecdsaSign digest
        = ecdsaSign (keccak (specEthPrefix ++ digest))) ∧
    (∀ digest, (signMessage keccak ecdsaSign digest).length = 65) := by
  have hpack : solidityPackedAddrU256U256 recipient amount nonce
      = specCanonicalPreimage recipient amount nonce := by
    simp [solidityPackedAddrU256U256, specCanonicalPreimage,
      beBytes_eq_leBytes_reverse]
  have hlen : (specCanonicalPreimage recipient amount nonce).length = 84 := by
    simp [specCanonicalPreimage, ← beBytes_eq_leBytes_reverse, beBytes_length]
  have hpre : ethersMessagePrefix = specEthPrefix := by decide
  refine ⟨?_, hpack, hlen, hpre, by decide, ?_, ?_⟩
  · unfold createMessageHash
    rw [hpack]
  · intro d
    unfold signMessage ethersHashMessage
    rw [hpre]
  · intro d
    unfold signMessage
    exact hsig _

/-- Witness for C2 at concrete inputs: an 84-byte preimage and a 65-byte
signature. -/
theorem relayer_preimage_matches_spec_witness :
    (specCanonicalPreimage 1 2 3).length = 84 ∧
    (signMessage id (fun _ => List.replicate 65 0) [0]).length = 65 :=
  ⟨(relayer_preimage_matches_spec id (fun _ => List.replicate 65 0) 1 2 3
      (fun _ => by simp)).2.2.1,
   (relayer_preimage_matches_spec id (fun _ => List.replicate 65 0) 1 2 3
      (fun _ => by simp)).2.2.2.2.2.2 [0]⟩

/-- C9: starting from deployment (`_currentNonce = 0`), the nonces carried by
the `TokensLocked` events emitted by any sequence of `lockTokens` calls are
exactly 1, 2, 3, … in call order — strictly increasing by one, starting at 1,
with no gaps (`m` below is the number of non-reverting calls, capped by the
checked `uint256` counter). -/
theorem lockTokens_nonces_sequential (calls : List LockCall) :
    ((runLockCalls 0 calls).2.map (·.nonce))
      = List.range' 1 (min (succCount calls) (UINT256_MOD - 1)) := by
  simpa using runLockCalls_nonces 0 calls

/-- C10: if the checkpoint file exists but `parseInt` of its trimmed contents
is `NaN`, `getLastProcessedBlock` returns `NaN` (not 0), the fresh-start
bootstrap (which triggers only on `=== 0`) is skipped, and since
`currentBlock > NaN` is false on every tick the relayer queries no block
range, submits nothing, writes no checkpoint, and its state never changes,
for any number of ticks. -/
theorem unparsable_checkpoint_idles (s : String) (pollInterval : Nat)
    (head0 : Int) (procs : List String) (file0 : Option String)
    (ticks : List (Int × List (TLEvent × TxOutcome)))
    (h : jsParseInt (jsTrim s) = .nan) :
    getLastProcessedBlock (some s) = .nan ∧
    getLastProcessedBlock (some s) ≠ .num 0 ∧
    initCursor (some s) head0 = .nan ∧
    (run pollInterval ⟨procs, .nan, file0⟩ ticks).1 = ⟨procs, .nan, file0⟩ ∧
    ∀ r ∈ (run pollInterval ⟨procs, .nan, file0⟩ ticks).2,
      r.queried = none ∧ r.submitted = [] ∧ r.wrote = none ∧
        r.state = ⟨procs, .nan, file0⟩ := by
  have h1 : getLastProcessedBlock (some s) = .nan := by
    simp [getLastProcessedBlock, h]
  refine ⟨h1, by simp [h1], ?_, (run_nan pollInterval procs file0 ticks).1, ?_⟩
  · simp [initCursor, h1, jsEqInt]
  · intro r hr
    have hre := (run_nan pollInterval procs file0 ticks).2 r hr
    simp [hre]

/-- Witness for C10: the file content `"garbage"` does not parse, and a
two-tick run with advancing heads does nothing. -/
theorem unparsable_checkpoint_idles_witness :
    initCursor (some "garbage") 500 = .nan ∧
    (run 5000 ⟨[], .nan, none⟩ [(5, []), (9, [])]).1 = ⟨[], .nan, none⟩ :=
  ⟨(unparsable_checkpoint_idles "garbage" 5000 500 [] none [(5, []), (9, [])]
      (by decide)).2.2.1,
   (unparsable_checkpoint_idles "garbage" 5000 500 [] none [(5, []), (9, [])]
      (by decide)).2.2.2.1⟩

/-- C4: a release failure whose thrown value is an `Error` with a message
containing `"Nonce has already been used"` is treated as success — the
sequence is inserted into the processed set, no error is propagated, and the
remaining events of the batch are processed; any other thrown value is
propagated to the caller and stops the batch. -/
theorem benign_nonce_error_is_success :
    (∀ msg, isBenign (.error msg) = hasSubstr msg "Nonce has already been used") ∧
    (∀ (e : JsError), isBenign e = true →
      ∀ (p : List String) (ev : TLEvent) (rest : List (TLEvent × TxOutcome)),
        nonceKey ev ∉ p →
          (runBatch p ((ev, .fail e) :: rest)).1
              = (runBatch (nonceKey ev :: p) rest).1 ∧
          (runBatch p ((ev, .fail e) :: rest)).2.1
              = ev.nonce :: (runBatch (nonceKey ev :: p) rest).2.1 ∧
          (runBatch p ((ev, .fail e) :: rest)).2.2
              = (runBatch (nonceKey ev :: p) rest).2.2) ∧
    (∀ (e : JsError), isBenign e = false →
      ∀ (p : List String) (ev : TLEvent) (rest : List (TLEvent × TxOutcome)),
        nonceKey ev ∉ p →
          runBatch p ((ev, .fail e) :: rest) = (p, [ev.nonce], some e)) := by
  refine ⟨fun msg => rfl, ?_, ?_⟩
  · intro e hb p ev rest hk
    have hpe : processEvent p ev (.fail e) = (nonceKey ev :: p, true, none) := by
      simp [processEvent, hk, hb]
    simp [runBatch, hpe]
  · intro e hb p ev rest hk
    have hpe : processEvent p ev (.fail e) = (p, true, some e) := by
      simp [processEvent, hk, hb]
    simp [runBatch, hpe]

/-- Witness for C4: the contract's benign revert string is swallowed, a
transport error is propagated. -/
theorem benign_nonce_error_is_success_witness :
    isBenign (.error "execution reverted: Bridge: Nonce has already been used.") = true ∧
    (runBatch []
      [(⟨1, 7, 100, 3⟩,
        .fail (.error "execution reverted: Bridge: Nonce has already been used."))]).2.2
      = none ∧
    runBatch [] [(⟨1, 7, 100, 3⟩, .fail (.error "transport failure"))]
      = ([], [1], some (.error "transport failure")) := by
  refine ⟨by decide, ?_, ?_⟩
  · have h := (benign_nonce_error_is_success.2.1
      (.error "execution reverted: Bridge: Nonce has already been used.")
      (by decide) [] ⟨1, 7, 100, 3⟩ [] (by simp)).2.2
    simpa [runBatch] using h
  · exact benign_nonce_error_is_success.2.2 (.error "transport failure")
      (by decide) [] ⟨1, 7, 100, 3⟩ [] (by simp)

/-- C5: on a tick that scans `[cursor+1, head]`, the checkpoint is written —
with value `head` — exactly when the whole batch reaches terminal status (no
propagated error), in which case every scanned event's key is in the processed
set; if some event fails with a propagated (non-benign) error, no checkpoint
is written, the in-memory cursor and the file are unchanged, and the next tick
queries from `cursor + 1` again. -/
theorem checkpoint_written_only_after_terminal_batch
    (pollInterval : Nat) (st : RState) (head : Int)
    (batch : List (TLEvent × TxOutcome)) (c : Int)
    (hc : st.cursor = .num c) (hh : c < head) :
    ((tick pollInterval st head batch).wrote ≠ none →
      (runBatch st.processed batch).2.2 = none ∧
      (tick pollInterval st head batch).wrote = some head ∧
      (tick pollInterval st head batch).state.file = some (toString head) ∧
      (tick pollInterval st head batch).state.cursor = .num head ∧
      ∀ eo ∈ batch,
        nonceKey eo.1 ∈ (tick pollInterval st head batch).state.processed) ∧
    ((runBatch st.processed batch).2.2 ≠ none →
      (tick pollInterval st head batch).wrote = none ∧
      (tick pollInterval st head batch).state.cursor = st.cursor ∧
      (tick pollInterval st head batch).state.file = st.file ∧
      ∀ (head' : Int) (batch' : List (TLEvent × TxOutcome)), c < head' →
        (tick pollInterval (tick pollInterval st head batch).state head' batch').queried
          = some (c + 1, head')) := by
  obtain ⟨p, cur, f⟩ := st
  simp only at hc
  subst hc
  cases herr : (runBatch p batch).2.2 with
  | none =>
    have ht : tick pollInterval ⟨p, .num c, f⟩ head batch =
        ⟨⟨(runBatch p batch).1, .num head, some (toString head)⟩,
          some (c + 1, head), (runBatch p batch).2.1, some head,
          pollInterval, false⟩ := by
      unfold tick
      simp only [if_pos hh, herr]
    rw [ht]
    refine ⟨fun _ => ⟨rfl, rfl, rfl, rfl, ?_⟩, fun hne => absurd rfl hne⟩
    intro eo heo
    exact runBatch_none_terminal p batch herr eo heo
  | some e =>
    have ht : tick pollInterval ⟨p, .num c, f⟩ head batch =
        ⟨⟨(runBatch p batch).1, .num c, f⟩,
          some (c + 1, head), (runBatch p batch).2.1, none,
          2 * pollInterval, true⟩ := by
      unfold tick
      simp only [if_pos hh, herr]
    rw [ht]
    refine ⟨fun hw => absurd rfl hw, fun _ => ⟨rfl, rfl, rfl, ?_⟩⟩
    intro head' batch' hh'
    rw [tick_queried pollInterval _ head' batch' c rfl, if_pos hh']

/-- Witness for C5: a successful single-event batch writes checkpoint 5; a
failing one writes nothing and keeps the cursor at 0. -/
theorem checkpoint_written_only_after_terminal_batch_witness :
    (tick 5000 ⟨[], .num 0, none⟩ 5 [(⟨1, 7, 100, 3⟩, .success)]).wrote = some 5 ∧
    (tick 5000 ⟨[], .num 0, none⟩ 5
      [(⟨1, 7, 100, 3⟩, .fail (.error "boom"))]).wrote = none ∧
    (tick 5000 ⟨[], .num 0, none⟩ 5
      [(⟨1, 7, 100, 3⟩, .fail (.error "boom"))]).state.cursor = .num 0 := by
  have h1 := (checkpoint_written_only_after_terminal_batch 5000 ⟨[], .num 0, none⟩ 5
      [(⟨1, 7, 100, 3⟩, .success)] 0 rfl (by norm_num)).1 (by decide)
  have h2 := (checkpoint_written_only_after_terminal_batch 5000 ⟨[], .num 0, none⟩ 5
      [(⟨1, 7, 100, 3⟩, .fail (.error "boom"))] 0 rfl (by norm_num)).2 (by decide)
  exact ⟨h1.2.1, h2.1, h2.2.1⟩

/-- C6 (counterexample): with the cursor at 0 and the head at 5000 the
relayer queries the full range `[1, 5000]` — not `[1, min(5000, 0 + 2000)]`
as a 2000-block `MAX_WINDOW` cap (the spec's example value) would require;
the code has no block-range cap and no such configuration option. -/
theorem query_range_uncapped_counterexample :
    (tick 5000 ⟨[], .num 0, none⟩ 5000 []).queried = some (1, 5000) ∧
    some ((1 : Int), (5000 : Int)) ≠ some (1, min 5000 ((0 : Int) + 2000)) := by
  refine ⟨rfl, ?_⟩
  intro hcontra
  simp at hcontra

/-- C6 (amended): on every tick with `head > cursor` the queried range is
exactly the inclusive interval `[cursor + 1, head]` — the upper bound is
always the chain head, with no `MAX_WINDOW` cap, so a single query may span
arbitrarily many blocks; when `head ≤ cursor` nothing is queried. -/
theorem query_range_is_cursor_to_head (pollInterval : Nat) (st : RState)
    (head : Int) (batch : List (TLEvent × TxOutcome)) (c : Int)
    (hc : st.cursor = .num c) :
    (c < head → (tick pollInterval st head batch).queried = some (c + 1, head)) ∧
    (¬ c < head → (tick pollInterval st head batch).queried = none) := by
  constructor <;> intro hh <;>
    simp [tick_queried pollInterval st head batch c hc, hh]

/-- Witness for C6's amended theorem at a concrete state. -/
theorem query_range_is_cursor_to_head_witness :
    (tick 7000 ⟨[], .num 10, none⟩ 4000 []).queried = some (11, 4000) :=
  (query_range_is_cursor_to_head 7000 ⟨[], .num 10, none⟩ 4000 [] 10 rfl).1
    (by norm_num)

/-- C1 (counterexample): within one process lifetime the relayer can submit
`releaseTokens` twice for the same sequence: a first submission that fails
with a non-benign error (here a transport error) does not insert the sequence
into the processed set and does not advance the cursor, so the next tick
re-queries the same range and submits sequence 1 again — two submissions for
sequence 1 in one run. -/
theorem duplicate_submission_counterexample :
    runSubmitted 5000 ⟨[], .num 0, none⟩
      [(5, [(⟨1, 7, 100, 3⟩, .fail (.error "connection reset"))]),
       (5, [(⟨1, 7, 100, 3⟩, .success)])] = [1, 1] := by
  rfl

/-- C1 (amended): an event whose sequence key is already in the processed set
is skipped without any submission; a sequence is inserted into the set exactly
when its submission succeeds or fails benignly (already-used), and once the
key is in the set no later tick of the run submits that sequence again —
but a sequence whose submission fails with any other error is not inserted
and may be submitted again on a later tick. -/
theorem at_most_one_submission_per_processed_sequence :
    (∀ (p : List String) (ev : TLEvent) (out : TxOutcome),
      nonceKey ev ∈ p → processEvent p ev out = (p, false, none)) ∧
    (∀ (p : List String) (ev : TLEvent) (out : TxOutcome),
      nonceKey ev ∉ p →
        ((processEvent p ev out).1 = nonceKey ev :: p ↔
          out = .success ∨ ∃ e, out = .fail e ∧ isBenign e = true)) ∧
    (∀ (pollInterval : Nat) (st : RState)
        (ticks : List (Int × List (TLEvent × TxOutcome))) (n : Nat),
      toString n ∈ st.processed →
        ∀ r ∈ (run pollInterval st ticks).2, n ∉ r.submitted) := by
  refine ⟨?_, ?_, fun pollInterval st ticks n hp =>
    run_no_resubmit pollInterval st ticks n hp⟩
  · intro p ev out hm
    simp [processEvent, hm]
  · intro p ev out hk
    cases out with
    | success => simp [processEvent, hk]
    | fail e =>
      by_cases hb : isBenign e
      · simp [processEvent, hk, hb]
      · have hpe : processEvent p ev (.fail e) = (p, true, some e) := by
          simp [processEvent, hk, hb]
        rw [hpe]
        constructor
        · intro h
          exact absurd h.symm (List.cons_ne_self _ _)
        · rintro (h | ⟨e', he, hbe⟩)
          · exact absurd h (by simp)
          · injection he with he'
            rw [he'] at hb
            exact absurd hbe hb

/-- Witness for C1's amended theorem at concrete inputs. -/
theorem at_most_one_submission_per_processed_sequence_witness :
    processEvent ["1"] ⟨1, 7, 100, 3⟩ .success = (["1"], false, none) ∧
    (processEvent [] ⟨1, 7, 100, 3⟩ .success).1 = [nonceKey ⟨1, 7, 100, 3⟩] ∧
    (1 : Nat) ∉ (tick 5000 ⟨["1"], .num 0, none⟩ 5
      [(⟨1, 7, 100, 3⟩, .success)]).submitted := by
  refine ⟨?_, ?_, ?_⟩
  · exact at_most_one_submission_per_processed_sequence.1 ["1"] ⟨1, 7, 100, 3⟩
      .success (by decide)
  · exact (at_most_one_submission_per_processed_sequence.2.1 [] ⟨1, 7, 100, 3⟩
      .success (by decide)).mpr (Or.inl rfl)
  · have h := at_most_one_submission_per_processed_sequence.2.2 5000
      ⟨["1"], .num 0, none⟩ [(5, [(⟨1, 7, 100, 3⟩, .success)])] 1 (by decide)
    exact h _ (by simp [run])

/-- C3 (counterexample): after a release reverts with
`"Bridge: Invalid signature."` the relayer does not halt and does not exit —
the tick is marked errored with a doubled sleep, the next tick still runs and
submits the same sequence again (so the event is retried, contradicting the
claimed fatal classification). -/
theorem invalid_signature_not_fatal_counterexample :
    ((run 5000 ⟨[], .num 0, none⟩
        [(5, [(⟨1, 7, 100, 3⟩,
          .fail (.error "execution reverted: Bridge: Invalid signature."))]),
         (5, [(⟨1, 7, 100, 3⟩, .success)])]).2.map
      (fun r => (r.submitted, r.errored, r.sleptMs)))
      = [([1], true, 10000), ([1], false, 5000)] := by
  rfl

/-- C3 (amended): a revert whose message contains `"Invalid signature"` is
handled like every other non-benign error: it is propagated to the polling
loop, which marks the tick errored, sleeps twice the poll interval, leaves the
cursor and checkpoint file unchanged, and re-queries from `cursor + 1` on the
next tick; the process never exits because of it. -/
theorem invalid_signature_retried_not_halting
    (pollInterval : Nat) (st : RState) (head : Int)
    (batch : List (TLEvent × TxOutcome)) (c : Int) (msg : String)
    (hc : st.cursor = .num c) (hh : c < head)
    (herr : (runBatch st.processed batch).2.2 = some (.error msg))
    (_hmsg : hasSubstr msg "Invalid signature" = true) :
    (tick pollInterval st head batch).errored = true ∧
    (tick pollInterval st head batch).sleptMs = 2 * pollInterval ∧
    (tick pollInterval st head batch).wrote = none ∧
    (tick pollInterval st head batch).state.cursor = st.cursor ∧
    (tick pollInterval st head batch).state.file = st.file ∧
    ∀ (head' : Int) (batch' : List (TLEvent × TxOutcome)), c < head' →
      (tick pollInterval (tick pollInterval st head batch).state head' batch').queried
        = some (c + 1, head') := by
  obtain ⟨p, cur, f⟩ := st
  simp only at hc herr
  subst hc
  have ht : tick pollInterval ⟨p, .num c, f⟩ head batch =
      ⟨⟨(runBatch p batch).1, .num c, f⟩,
        some (c + 1, head), (runBatch p batch).2.1, none,
        2 * pollInterval, true⟩ := by
    unfold tick
    simp only [if_pos hh, herr]
  rw [ht]
  refine ⟨rfl, rfl, rfl, rfl, rfl, ?_⟩
  intro head' batch' hh'
  rw [tick_queried pollInterval _ head' batch' c rfl, if_pos hh']

/-- Witness for C3's amended theorem on a concrete invalid-signature revert. -/
theorem invalid_signature_retried_not_halting_witness :
    (tick 5000 ⟨[], .num 0, none⟩ 5
        [(⟨1, 7, 100, 3⟩, .fail (.error "Bridge: Invalid signature."))]).errored
      = true ∧
    (tick 5000 ⟨[], .num 0, none⟩ 5
        [(⟨1, 7, 100, 3⟩, .fail (.error "Bridge: Invalid signature."))]).sleptMs
      = 10000 ∧
    (tick 5000 (tick 5000 ⟨[], .num 0, none⟩ 5
        [(⟨1, 7, 100, 3⟩, .fail (.error "Bridge: Invalid signature."))]).state
      6 []).queried = some (1, 6) := by
  have h := invalid_signature_retried_not_halting 5000 ⟨[], .num 0, none⟩ 5
      [(⟨1, 7, 100, 3⟩, .fail (.error "Bridge: Invalid signature."))] 0
      "Bridge: Invalid signature." rfl (by norm_num) (by decide) (by decide)
  refine ⟨h.1, ?_, h.2.2.2.2.2 6 [] (by norm_num)⟩
  rw [h.2.1]

/-- C7 (counterexample): the checkpoint store issues a single direct write of
the decimal string to the checkpoint path — its operation trace contains no
rename and is not the write-temp-then-rename sequence the claim describes. -/
theorem checkpoint_store_not_atomic_counterexample :
    (saveLastProcessedBlock "./last_block.txt" 42).any FsOp.isRenameOp = false ∧
    saveLastProcessedBlock "./last_block.txt" 42
      ≠ specAtomicStore "./last_block.txt" 42 := by
  refine ⟨rfl, ?_⟩
  decide

/-- C7 (amended): `saveLastProcessedBlock` persists the block number as a
single direct `writeFile` of its decimal string to the configured checkpoint
path, with no temporary file and no rename step (so rename-based
crash-atomicity is not provided). -/
theorem checkpoint_store_single_write (path : String) (blockNumber : Int) :
    saveLastProcessedBlock path blockNumber
        = [FsOp.write path (toString blockNumber)] ∧
    (saveLastProcessedBlock path blockNumber).any FsOp.isRenameOp = false :=
  ⟨rfl, rfl⟩

/-- C8 (counterexample): the SIGINT/SIGTERM handler does not merely flip the
running flag for the loop to observe — it performs `process.exit(0)` itself,
synchronously, so the handler's exit action is `some 0` rather than `none`
(termination is immediate, not deferred to the loop's next suspension point,
and any in-flight event is abandoned). -/
theorem shutdown_exits_immediately_counterexample :
    (onShutdownSignal ⟨⟨[], .num 0, none⟩, true⟩).2 = some 0 ∧
    (onShutdownSignal ⟨⟨[], .num 0, none⟩, true⟩).2 ≠ none := by
  exact ⟨rfl, by decide⟩

/-- C8 (amended): on SIGINT or SIGTERM the handler sets `isRunning` to false
and immediately exits the process with status 0; it touches nothing else —
the relayer's processed set, cursor and checkpoint file are left as they are
(so the checkpoint is not advanced past partial work), but the in-flight event
is not awaited. -/
theorem shutdown_flips_flag_and_exits_zero (s : SupervisorState) :
    (onShutdownSignal s).1.isRunning = false ∧
    (onShutdownSignal s).1.relayer = s.relayer ∧
    (onShutdownSignal s).2 = some 0 ∧
    (stopRelayer s).isRunning = false ∧
    (stopRelayer s).relayer = s.relayer :=
  ⟨rfl, rfl, rfl, rfl, rfl⟩
